import Mathlib

/-!
Shallow embedding of the facebook-ads dashboard repository
(`facebook_api.py`, `database.py`, `gemini_query.py`) and proofs about
the behaviour of its string handling, pagination, storage and
query-classification code.

Python strings are modelled as `List Char`, Python floats as `ℚ`,
Python ints as `ℤ`, dynamically typed JSON scalars as `PyVal`, and
datetimes as integer timestamps.  Fallible code is modelled with
`Option`/`Except`.
-/

/-- The backtick character (code point 96), used by the markdown code
fences that `_clean_sql_response` removes. -/
def btick : Char := Char.ofNat 96

/-- Python whitespace as recognised by `str.strip()` (ASCII part:
space, tab, newline, carriage return, vertical tab, form feed). -/
def pyIsSpace (c : Char) : Bool :=
  c == ' ' || c == '\t' || c == '\n' || c == '\r' ||
    c == Char.ofNat 11 || c == Char.ofNat 12

/-- Python `str.strip()`: drop whitespace from both ends. -/
def pyStrip (s : List Char) : List Char :=
  (s.dropWhile pyIsSpace).rdropWhile pyIsSpace

/-- Python `str.lower` on one character (ASCII range). -/
def pyLowerChar (c : Char) : Char :=
  if 'A' ≤ c ∧ c ≤ 'Z' then Char.ofNat (c.toNat + 32) else c

/-- Python `str.upper` on one character (ASCII range). -/
def pyUpperChar (c : Char) : Char :=
  if 'a' ≤ c ∧ c ≤ 'z' then Char.ofNat (c.toNat - 32) else c

/-- Python `str.lower` (ASCII model). -/
def pyLower (s : List Char) : List Char := s.map pyLowerChar

/-- Python `str.upper` (ASCII model). -/
def pyUpper (s : List Char) : List Char := s.map pyUpperChar

/-- Python `str.startswith`: `strStarts pat s` is true when `pat` is a
prefix of `s`. -/
def strStarts : List Char → List Char → Bool
  | [], _ => true
  | _ :: _, [] => false
  | a :: as, b :: bs => a == b && strStarts as bs

/-- Python substring containment `pat in s`. -/
def containsSub (pat : List Char) : List Char → Bool
  | [] => pat.isEmpty
  | c :: r => strStarts pat (c :: r) || containsSub pat r

/-- Python `str.endswith(";")`. -/
def endsSemi (s : List Char) : Bool := s.getLast? == some ';'

/-- The literal pattern of the regex occurrence removed first by
`_clean_sql_response`: three backticks followed by `sql`. -/
def fenceSql : List Char := [btick, btick, btick, 's', 'q', 'l']

/-- The literal pattern of the second regex occurrence removed by
`_clean_sql_response`: three backticks. -/
def fence3 : List Char := [btick, btick, btick]

/-- First character is a backtick (used to reason about the fence
scans). -/
def firstIsTick : List Char → Bool
  | c :: _ => btick == c
  | [] => false

/-- First two characters are backticks. -/
def firstTwoTicks : List Char → Bool
  | c :: d :: _ => btick == c && (btick == d)
  | _ => false

/-- Some position of the list starts three consecutive backticks,
i.e. the second fence pattern occurs as a substring. -/
def hasFence : List Char → Bool
  | [] => false
  | c :: r => strStarts fence3 (c :: r) || hasFence r

/-- Drop a single leading newline if present; models the greedy `\n?`
tail of the fence regexes. -/
def dropNl (s : List Char) : List Char :=
  match s with
  | c :: r => if c = '\n' then r else c :: r
  | [] => []

/-- Left-to-right removal of every non-overlapping occurrence of
three-backticks-`sql` plus an optional trailing newline: the effect of
`re.sub(r'(fence)sql\n?', '', response)` with an empty replacement. -/
def subFenceSql : List Char → List Char
  | [] => []
  | c :: r =>
    if strStarts fenceSql (c :: r) then subFenceSql (dropNl ((c :: r).drop 6))
    else c :: subFenceSql r
  termination_by s => s.length
  decreasing_by
  · have h0 : ∀ u : List Char, (dropNl u).length ≤ u.length := by
      intro u
      cases u with
      | nil => simp [dropNl]
      | cons d t => simp only [dropNl]; split <;> simp
    have h1 := h0 ((c :: r).drop 6)
    simp only [List.length_drop, List.length_cons] at h1 ⊢
    omega
  · simp

/-- Left-to-right removal of every non-overlapping occurrence of three
backticks plus an optional trailing newline: the effect of the second
`re.sub` in `_clean_sql_response`. -/
def subFence3 : List Char → List Char
  | [] => []
  | c :: r =>
    if strStarts fence3 (c :: r) then subFence3 (dropNl ((c :: r).drop 3))
    else c :: subFence3 r
  termination_by s => s.length
  decreasing_by
  · have h0 : ∀ u : List Char, (dropNl u).length ≤ u.length := by
      intro u
      cases u with
      | nil => simp [dropNl]
      | cons d t => simp only [dropNl]; split <;> simp
    have h1 := h0 ((c :: r).drop 3)
    simp only [List.length_drop, List.length_cons] at h1 ⊢
    omega
  · simp

/-- `GeminiQueryEngine._clean_sql_response`: remove the markdown code
fence markers, strip surrounding whitespace, and append a semicolon if
the result does not already end with one. -/
def clean_sql_response (s : List Char) : List Char :=
  let t := pyStrip (subFence3 (subFenceSql s))
  if endsSemi t then t else t ++ [';']

/-- `GeminiQueryEngine._execute_sql_query`: raise `ValueError` unless
the stripped, uppercased query starts with `SELECT`; otherwise hand the
original query string to `DatabaseManager.execute_query` (modelled by
the function `db`). -/
def execute_sql_query {α : Type} (db : List Char → α) (q : List Char) :
    Except (List Char) α :=
  if strStarts "SELECT".data (pyUpper (pyStrip q)) then Except.ok (db q)
  else Except.error "Only SELECT queries are allowed".data

/-- The fixed keyword list of `GeminiQueryEngine._is_analytical_query`. -/
def analytical_keywords : List (List Char) :=
  [ "roas".data, "cac".data, "cpr".data, "ctr trend".data, "vs".data,
    "compared to".data, "comparison".data, "best performing".data,
    "worst performing".data, "burning budget".data, "low performance".data,
    "drops".data, "spikes".data, "anomalies".data, "top creatives".data,
    "learning phase".data, "limited by budget".data, "audience size".data,
    "impact of changes".data, "budget shifts".data, "over-spending".data,
    "under-spending".data, "unexpected spike".data, "same day last week".data,
    "yesterday vs today".data, "past 7 days".data, "trend analysis".data,
    "performance analysis".data ]

/-- `GeminiQueryEngine._is_analytical_query`: true when the lowercased
question contains any keyword of the fixed list as a substring. -/
def is_analytical_query (q : List Char) : Bool :=
  analytical_keywords.any (fun k => containsSub k (pyLower q))

/-- A dynamically typed Python/JSON scalar as it reaches the numeric
field parsers of `FacebookAPI`. -/
inductive PyVal
  | none
  | str (s : String)
  | int (n : Int)
  | float (q : ℚ)
deriving Repr, DecidableEq

/-- Numeric value of a digit list (most significant first), empty list
giving zero. -/
def natValD (l : List Char) : Nat :=
  l.foldl (fun a c => a * 10 + (c.toNat - 48)) 0

/-- Modelled Python builtin: `int(s)` for a string, restricted to
optionally signed decimal digit strings with surrounding whitespace;
`Option.none` models `ValueError`. -/
def pyIntOfString (s : String) : Option Int :=
  let t := pyStrip s.data
  match t with
  | '+' :: ds =>
    if ds ≠ [] ∧ ds.all (·.isDigit) then some (natValD ds : Int) else Option.none
  | '-' :: ds =>
    if ds ≠ [] ∧ ds.all (·.isDigit) then some (-(natValD ds : Int)) else Option.none
  | ds =>
    if ds ≠ [] ∧ ds.all (·.isDigit) then some (natValD ds : Int) else Option.none

/-- Modelled Python builtin: `float(s)` for a string, restricted to
optionally signed decimal literals (`12`, `12.`, `.5`, `3.25`) with
surrounding whitespace; `Option.none` models `ValueError`. -/
def pyFloatOfString (s : String) : Option ℚ :=
  let t := pyStrip s.data
  let core : List Char → Option ℚ := fun body =>
    match body.span (·.isDigit) with
    | (ip, []) => if ip ≠ [] then some ((natValD ip : ℚ)) else Option.none
    | (ip, '.' :: fp) =>
      if fp.all (·.isDigit) ∧ (ip ≠ [] ∨ fp ≠ []) then
        some ((natValD ip : ℚ) + (natValD fp : ℚ) / (10 : ℚ) ^ fp.length)
      else Option.none
    | (_, _) => Option.none
  match t with
  | '+' :: r => core r
  | '-' :: r => (core r).map (fun q => -q)
  | r => core r

/-- Truncation toward zero, the behaviour of Python `int(float)`. -/
def ratTrunc (q : ℚ) : Int := if 0 ≤ q then ⌊q⌋ else ⌈q⌉

/-- `FacebookAPI._parse_float`: `0.0` for `None` and the empty string,
the parsed value for anything `float()` accepts, `0.0` on parse
failure. -/
def parse_float (v : PyVal) : ℚ :=
  match v with
  | PyVal.none => 0
  | PyVal.str s => if s = "" then 0 else (pyFloatOfString s).getD 0
  | PyVal.int n => (n : ℚ)
  | PyVal.float q => q

/-- `FacebookAPI._parse_int`: `0` for `None` and the empty string, the
parsed value for anything `int()` accepts (floats truncate toward
zero), `0` on parse failure. -/
def parse_int (v : PyVal) : Int :=
  match v with
  | PyVal.none => 0
  | PyVal.str s => if s = "" then 0 else (pyIntOfString s).getD 0
  | PyVal.int n => n
  | PyVal.float q => ratTrunc q

/-- Modelled Python builtin: the two `datetime.strptime` attempts of
`FacebookAPI._parse_datetime`/`_parse_date`, abstracting a datetime as
an integer timestamp and a datetime string as its decimal rendering. -/
def pyDatetimeOfString (s : String) : Option Int := pyIntOfString s

/-- `FacebookAPI._parse_datetime`: `None` for a missing or empty
string, the parsed timestamp on success, `None` on failure. -/
def parse_datetime (v : Option String) : Option Int :=
  match v with
  | Option.none => Option.none
  | some s => if s = "" then Option.none else pyDatetimeOfString s

/-- `FacebookAPI._parse_date`: same shape as `_parse_datetime` with the
date-only format. -/
def parse_date (v : Option String) : Option Int := parse_datetime v

/-- A raw campaign JSON object as returned by the Graph API, with
`Option.none` marking an absent key (`dict.get` then yields `None`). -/
structure RawCampaign where
  id : Option String := Option.none
  name : Option String := Option.none
  status : Option String := Option.none
  objective : Option String := Option.none
  created_time : Option String := Option.none
  updated_time : Option String := Option.none
  start_time : Option String := Option.none
  stop_time : Option String := Option.none
  budget_remaining : PyVal := PyVal.none
  daily_budget : PyVal := PyVal.none
  lifetime_budget : PyVal := PyVal.none
deriving Repr, DecidableEq

/-- A processed campaign record as built by `fetch_campaigns` and
stored in the `campaigns` table. -/
structure Campaign where
  id : Option String
  account_id : String
  name : Option String
  status : Option String
  objective : Option String
  created_time : Option Int
  updated_time : Option Int
  start_time : Option Int
  stop_time : Option Int
  budget_remaining : Option ℚ
  daily_budget : Option ℚ
  lifetime_budget : Option ℚ
  data : RawCampaign
deriving Repr, DecidableEq

/-- The per-record processing step of `FacebookAPI.fetch_campaigns`. -/
def process_campaign (account_id : String) (c : RawCampaign) : Campaign :=
  { id := c.id
    account_id := account_id
    name := c.name
    status := c.status
    objective := c.objective
    created_time := parse_datetime c.created_time
    updated_time := parse_datetime c.updated_time
    start_time := parse_datetime c.start_time
    stop_time := parse_datetime c.stop_time
    budget_remaining := some (parse_float c.budget_remaining)
    daily_budget := some (parse_float c.daily_budget)
    lifetime_budget := some (parse_float c.lifetime_budget)
    data := c }

/-- `FacebookAPI._get_sample_campaigns`: the canned two-record fallback
dataset, with `now` the value of `datetime.now()` as a timestamp and a
day lasting 86400 seconds. -/
def sample_campaigns (now : Int) (account_id : String) : List Campaign :=
  [ { id := some "camp_001"
      account_id := account_id
      name := some "Holiday Sales Campaign"
      status := some "ACTIVE"
      objective := some "CONVERSIONS"
      created_time := some (now - 30 * 86400)
      updated_time := some (now - 1 * 86400)
      start_time := some (now - 30 * 86400)
      stop_time := Option.none
      budget_remaining := some 5000
      daily_budget := some 100
      lifetime_budget := Option.none
      data := {} },
    { id := some "camp_002"
      account_id := account_id
      name := some "Brand Awareness Campaign"
      status := some "ACTIVE"
      objective := some "BRAND_AWARENESS"
      created_time := some (now - 20 * 86400)
      updated_time := some (now - 2 * 86400)
      start_time := some (now - 20 * 86400)
      stop_time := Option.none
      budget_remaining := some 3000
      daily_budget := some 75
      lifetime_budget := Option.none
      data := {} } ]

/-- A raw ad-set JSON object. -/
structure RawAdSet where
  id : Option String := Option.none
  name : Option String := Option.none
  status : Option String := Option.none
  campaign_id : Option String := Option.none
  optimization_goal : Option String := Option.none
  billing_event : Option String := Option.none
  bid_amount : PyVal := PyVal.none
  daily_budget : PyVal := PyVal.none
  lifetime_budget : PyVal := PyVal.none
  start_time : Option String := Option.none
  end_time : Option String := Option.none
  created_time : Option String := Option.none
  updated_time : Option String := Option.none
deriving Repr, DecidableEq

/-- A processed ad-set record as built by `fetch_adsets`. -/
structure AdSet where
  id : Option String
  account_id : String
  campaign_id : Option String
  name : Option String
  status : Option String
  optimization_goal : Option String
  billing_event : Option String
  bid_amount : Option ℚ
  daily_budget : Option ℚ
  lifetime_budget : Option ℚ
  start_time : Option Int
  end_time : Option Int
  created_time : Option Int
  updated_time : Option Int
  data : RawAdSet
deriving Repr, DecidableEq

/-- The per-record processing step of `FacebookAPI.fetch_adsets`. -/
def process_adset (account_id : String) (a : RawAdSet) : AdSet :=
  { id := a.id
    account_id := account_id
    campaign_id := a.campaign_id
    name := a.name
    status := a.status
    optimization_goal := a.optimization_goal
    billing_event := a.billing_event
    bid_amount := some (parse_float a.bid_amount)
    daily_budget := some (parse_float a.daily_budget)
    lifetime_budget := some (parse_float a.lifetime_budget)
    start_time := parse_datetime a.start_time
    end_time := parse_datetime a.end_time
    created_time := parse_datetime a.created_time
    updated_time := parse_datetime a.updated_time
    data := a }

/-- A raw ad JSON object. -/
structure RawAd where
  id : Option String := Option.none
  name : Option String := Option.none
  status : Option String := Option.none
  campaign_id : Option String := Option.none
  adset_id : Option String := Option.none
  created_time : Option String := Option.none
  updated_time : Option String := Option.none
deriving Repr, DecidableEq

/-- A processed ad record as built by `fetch_ads`; it carries no
numeric field. -/
structure Ad where
  id : Option String
  account_id : String
  campaign_id : Option String
  adset_id : Option String
  name : Option String
  status : Option String
  created_time : Option Int
  updated_time : Option Int
  data : RawAd
deriving Repr, DecidableEq

/-- The per-record processing step of `FacebookAPI.fetch_ads`. -/
def process_ad (account_id : String) (a : RawAd) : Ad :=
  { id := a.id
    account_id := account_id
    campaign_id := a.campaign_id
    adset_id := a.adset_id
    name := a.name
    status := a.status
    created_time := parse_datetime a.created_time
    updated_time := parse_datetime a.updated_time
    data := a }

/-- A raw insight JSON object. -/
structure RawInsight where
  campaign_id : Option String := Option.none
  adset_id : Option String := Option.none
  ad_id : Option String := Option.none
  date_start : Option String := Option.none
  date_stop : Option String := Option.none
  impressions : PyVal := PyVal.none
  clicks : PyVal := PyVal.none
  spend : PyVal := PyVal.none
  reach : PyVal := PyVal.none
  frequency : PyVal := PyVal.none
  cpm : PyVal := PyVal.none
  cpc : PyVal := PyVal.none
  ctr : PyVal := PyVal.none
  cpp : PyVal := PyVal.none
  actions : PyVal := PyVal.none
  cost_per_action_type : PyVal := PyVal.none
deriving Repr, DecidableEq

/-- A processed insight record as built by `fetch_insights`. -/
structure Insight where
  id : String
  account_id : String
  campaign_id : Option String
  adset_id : Option String
  ad_id : Option String
  date_start : Option Int
  date_stop : Option Int
  impressions : Option Int
  clicks : Option Int
  spend : Option ℚ
  reach : Option Int
  frequency : Option ℚ
  cpm : Option ℚ
  cpc : Option ℚ
  ctr : Option ℚ
  cpp : Option ℚ
  actions : PyVal
  cost_per_action_type : PyVal
  data : RawInsight
deriving Repr, DecidableEq

/-- The per-record processing step of `FacebookAPI.fetch_insights`,
where `n` is `len(processed_insights)` at the time the record is
built, i.e. its ordinal position. -/
def process_insight (account_id : String) (n : Nat) (r : RawInsight) : Insight :=
  { id := (r.campaign_id.getD "") ++ "-" ++ (r.date_start.getD "") ++ "-" ++ toString n
    account_id := account_id
    campaign_id := r.campaign_id
    adset_id := r.adset_id
    ad_id := r.ad_id
    date_start := parse_date r.date_start
    date_stop := parse_date r.date_stop
    impressions := some (parse_int r.impressions)
    clicks := some (parse_int r.clicks)
    spend := some (parse_float r.spend)
    reach := some (parse_int r.reach)
    frequency := some (parse_float r.frequency)
    cpm := some (parse_float r.cpm)
    cpc := some (parse_float r.cpc)
    ctr := some (parse_float r.ctr)
    cpp := some (parse_float r.cpp)
    actions := r.actions
    cost_per_action_type := r.cost_per_action_type
    data := r }

/-- The accumulation loop of `FacebookAPI.fetch_insights`: each record
is processed with the current length of the accumulator as its
ordinal. -/
def process_insights (account_id : String) (raws : List RawInsight) : List Insight :=
  raws.foldl (fun acc r => acc ++ [process_insight account_id acc.length r]) []

/-- Fuel-driven worker for `splitOnSub`; the fuel is always at least
the length of the list, so the fallback branches are unreachable. -/
def splitFuel (sep : List Char) : Nat → List Char → List (List Char)
  | _, [] => [[]]
  | 0, s => [s]
  | fuel + 1, c :: r =>
    if sep ≠ [] ∧ strStarts sep (c :: r) = true then
      [] :: splitFuel sep fuel ((c :: r).drop sep.length)
    else
      match splitFuel sep fuel r with
      | [] => [[c]]
      | h :: t => (c :: h) :: t

/-- Modelled Python builtin: `str.split(sep)` for a nonempty separator,
splitting at every non-overlapping occurrence scanned left to right. -/
def splitOnSub (sep s : List Char) : List (List Char) :=
  splitFuel sep s.length s

/-- The cursor extraction of `FacebookAPI._paginate_request`:
`next_url.split('after=')[1].split('&')[0] if 'after=' in next_url
else None`. -/
def extract_after (url : String) : Option String :=
  match splitOnSub "after=".data url.data with
  | _ :: second :: _ => some (String.mk ((splitOnSub ['&'] second).headD []))
  | _ => Option.none

/-- One scripted page of an API response: the optional `data` array and
the optional `paging.next` URL. -/
structure Page (α : Type) where
  data : Option (List α)
  next_url : Option String
deriving Repr, DecidableEq

/-- A scripted outcome of one `_make_request` call: a page, or a raised
request exception. -/
inductive Resp (α : Type)
  | ok (p : Page α)
  | err
deriving Repr, DecidableEq

/-- The continuation cursor the pagination loop derives from a page:
present exactly when the page has a `paging.next` URL from which a
nonempty `after` parameter can be extracted. -/
def cursor_of {α : Type} (p : Page α) : Option String :=
  match p.next_url with
  | Option.none => Option.none
  | some url =>
    match extract_after url with
    | Option.none => Option.none
    | some a => if a = "" then Option.none else some a

/-- The records a page contributes: its `data` array, or nothing when
the key is absent. -/
def page_data {α : Type} (p : Page α) : List α := p.data.getD []

/-- The `while` loop of `FacebookAPI._paginate_request`, run from the
page `p` with the remaining scripted responses `script`; `Option.none`
models a raised exception (a failing request, or a request the script
does not answer). -/
def paginate_rest {α : Type} : Page α → List (Resp α) → Option (List α)
  | p, [] =>
    match cursor_of p with
    | Option.none => some []
    | some _ => Option.none
  | p, Resp.err :: _ =>
    match cursor_of p with
    | Option.none => some []
    | some _ => Option.none
  | p, Resp.ok q :: rest =>
    match cursor_of p with
    | Option.none => some []
    | some _ =>
      match q.data with
      | Option.none => some []
      | some d => (paginate_rest q rest).map (fun tail => d ++ tail)

/-- `FacebookAPI._paginate_request`: issue the first request, then
follow continuation cursors; `Option.none` models the re-raised
exception. -/
def paginate_request {α : Type} : Resp α → List (Resp α) → Option (List α)
  | Resp.err, _ => Option.none
  | Resp.ok p, script => (paginate_rest p script).map (fun t => page_data p ++ t)

/-- The pages actually requested (and answered) by the pagination loop
after the first page, in request order. -/
def requested_pages {α : Type} : Page α → List (Resp α) → List (Page α)
  | _, [] => []
  | _, Resp.err :: _ => []
  | p, Resp.ok q :: rest =>
    match cursor_of p with
    | Option.none => []
    | some _ =>
      match q.data with
      | Option.none => [q]
      | some _ => q :: requested_pages q rest

/-- `FacebookAPI.fetch_campaigns`: paginate, process every raw record,
and on any raised error return the canned sample dataset instead; no
exception reaches the caller. -/
def fetch_campaigns (now : Int) (account_id : String)
    (first : Resp RawCampaign) (script : List (Resp RawCampaign)) : List Campaign :=
  match paginate_request first script with
  | some raws => raws.map (process_campaign account_id)
  | Option.none => sample_campaigns now account_id

/-- The state of the four flat tables owned by `DatabaseManager`. -/
structure DBState where
  campaigns : List Campaign
  adsets : List AdSet
  ads : List Ad
  insights : List Insight
deriving Repr, DecidableEq

/-- One store operation: `pandas.DataFrame.to_sql(..., if_exists =
'replace')` destructively replaces the whole named table. -/
inductive StoreOp
  | campaigns (rows : List Campaign)
  | adsets (rows : List AdSet)
  | ads (rows : List Ad)
  | insights (rows : List Insight)
deriving Repr, DecidableEq

/-- `DatabaseManager.store_campaigns` / `store_adsets` / `store_ads` /
`store_insights`: replace the corresponding table wholesale. -/
def applyStore (st : DBState) : StoreOp → DBState
  | StoreOp.campaigns l => { st with campaigns := l }
  | StoreOp.adsets l => { st with adsets := l }
  | StoreOp.ads l => { st with ads := l }
  | StoreOp.insights l => { st with insights := l }

/-- Apply a sequence of store operations in order. -/
def applyStores (st : DBState) (ops : List StoreOp) : DBState :=
  ops.foldl applyStore st

/-- The ordering used by `ORDER BY created_time DESC` (PostgreSQL puts
NULLs first on a descending sort): `timeLeDesc a b` says `a` may come
no later than `b` in the output. -/
def timeLeDesc (a b : Option Int) : Bool :=
  match a, b with
  | Option.none, _ => true
  | some _, Option.none => false
  | some x, some y => y ≤ x

/-- Insertion into a list already ordered by `timeLeDesc` on `key`. -/
def insertDesc {α : Type} (key : α → Option Int) (a : α) : List α → List α
  | [] => [a]
  | b :: r => if timeLeDesc (key b) (key a) then b :: insertDesc key a r
              else a :: b :: r

/-- Insertion sort by `timeLeDesc` on `key`, modelling the SQL
`ORDER BY ... DESC` of the retrieval queries. -/
def sortDesc {α : Type} (key : α → Option Int) (l : List α) : List α :=
  l.foldr (insertDesc key) []

/-- `DatabaseManager.get_campaigns`: `SELECT * FROM campaigns ORDER BY
created_time DESC`. -/
def get_campaigns (st : DBState) : List Campaign :=
  sortDesc (fun c => c.created_time) st.campaigns

/-- The records of the most recent `store_campaigns` call in a
sequence of store operations, if any. -/
def lastStoredCampaigns : List StoreOp → Option (List Campaign)
  | [] => Option.none
  | op :: rest =>
    match lastStoredCampaigns rest with
    | some l => some l
    | Option.none =>
      match op with
      | StoreOp.campaigns l => some l
      | _ => Option.none

/-- The values of one result-set column: numeric (a pandas numeric
dtype) or non-numeric. -/
inductive ColVals
  | nums (vs : List ℚ)
  | strs (vs : List String)
deriving Repr, DecidableEq

/-- One column of a pandas DataFrame. -/
structure PyCol where
  name : String
  vals : ColVals
deriving Repr, DecidableEq

/-- A pandas DataFrame as seen by `_generate_fallback_insights`:
`len(data)` and the columns. -/
structure PyDF where
  nrows : Nat
  cols : List PyCol
deriving Repr, DecidableEq

/-- `data.select_dtypes(include=['number']).columns` with the values of
each numeric column. -/
def numeric_cols (df : PyDF) : List (String × List ℚ) :=
  df.cols.filterMap (fun c =>
    match c.vals with
    | ColVals.nums vs => some (c.name, vs)
    | ColVals.strs _ => Option.none)

/-- Column sum, as `data[col].sum()`. -/
def qsum (vs : List ℚ) : ℚ := vs.foldl (fun a b => a + b) 0

/-- Column mean, as `data[col].mean()` (division by zero yields `0` in
`ℚ`; pandas would yield NaN, a case no claim exercises). -/
def qmean (vs : List ℚ) : ℚ := qsum vs / (vs.length : ℚ)

/-- One sentence of the deterministic fallback narration, kept as
structured content rather than a formatted string. -/
inductive FallbackItem
  | found (n : Nat)
  | spendLine (col : String) (total avg : ℚ)
  | ctrLine (col : String) (avg : ℚ)
  | totalLine (col : String) (total : ℚ)
  | topPerformer (col : String) (who : String)
deriving Repr, DecidableEq

/-- The `if`/`elif` chain of `_generate_fallback_insights` for one
numeric column: a spend sentence when the lowercased name contains
`spend`, else a CTR sentence when it contains `ctr`, else a total
sentence when it is exactly `impressions` or `clicks`, else nothing. -/
def column_sentence (name : String) (vs : List ℚ) : Option FallbackItem :=
  if containsSub "spend".data (pyLower name.data) then
    some (FallbackItem.spendLine name (qsum vs) (qmean vs))
  else if containsSub "ctr".data (pyLower name.data) then
    some (FallbackItem.ctrLine name (qmean vs))
  else if pyLower name.data = "impressions".data ∨ pyLower name.data = "clicks".data then
    some (FallbackItem.totalLine name (qsum vs))
  else Option.none

/-- First index of the maximum of a column (`nlargest(1, col)` keeps
the first occurrence on ties). -/
def argmaxIdx (l : List ℚ) : Nat :=
  match l with
  | [] => 0
  | h :: t =>
    (t.foldl (fun st v =>
      match st with
      | (bi, bv, i) => if bv < v then (i, v, i + 1) else (bi, bv, i + 1))
      ((0 : Nat), h, (1 : Nat))).1

/-- The value of the `name` column in the row selected by
`nlargest(1, top_col)`. -/
def nameAt (cv : ColVals) (i : Nat) : String :=
  match cv with
  | ColVals.strs vs => vs.getD i ""
  | ColVals.nums vs => toString (vs.getD i 0)

/-- The first column called `name`, if the DataFrame has one. -/
def findNameCol (df : PyDF) : Option ColVals :=
  (df.cols.find? (fun c => c.name == "name")).map (fun c => c.vals)

/-- The optional top-performer sentence appended at the end of
`_generate_fallback_insights`. -/
def top_performer_items (df : PyDF) : List FallbackItem :=
  if 1 < df.nrows then
    match findNameCol df, numeric_cols df with
    | some cv, (tn, tv) :: _ =>
      [FallbackItem.topPerformer tn (nameAt cv (argmaxIdx tv))]
    | _, _ => []
  else []

/-- `GeminiQueryEngine._generate_fallback_insights`: the record-count
sentence, then the loop over numeric columns, then the top-performer
sentence. -/
def generate_fallback_insights (df : PyDF) : List FallbackItem :=
  let items := [FallbackItem.found df.nrows]
  let items := (numeric_cols df).foldl (fun acc nc =>
    match column_sentence nc.1 nc.2 with
    | some it => acc ++ [it]
    | Option.none => acc) items
  items ++ top_performer_items df

/-- Concrete campaign used to instantiate the storage theorems. -/
def wCampA : Campaign :=
  { id := some "camp_010"
    account_id := "act_1"
    name := some "Old Stored Campaign"
    status := some "PAUSED"
    objective := some "CONVERSIONS"
    created_time := some 100
    updated_time := some 100
    start_time := Option.none
    stop_time := Option.none
    budget_remaining := some 10
    daily_budget := some 1
    lifetime_budget := Option.none
    data := {} }

/-- Second concrete campaign used to instantiate the storage
theorems. -/
def wCampB : Campaign :=
  { id := some "camp_020"
    account_id := "act_1"
    name := some "New Stored Campaign"
    status := some "ACTIVE"
    objective := some "TRAFFIC"
    created_time := some 200
    updated_time := some 200
    start_time := Option.none
    stop_time := Option.none
    budget_remaining := some 20
    daily_budget := some 2
    lifetime_budget := Option.none
    data := {} }

/-- The empty database state. -/
def db0 : DBState := { campaigns := [], adsets := [], ads := [], insights := [] }

/-- Concrete first page (with a continuation cursor) used to
instantiate the pagination theorem. -/
def wPage1 : Page Nat :=
  { data := some [1, 2], next_url := some "x?after=abc&limit=500" }

/-- Concrete final page (no cursor) used to instantiate the pagination
theorem. -/
def wPage2 : Page Nat := { data := some [3], next_url := Option.none }

/-- Concrete raw insight with no identifying fields. -/
def wRawI0 : RawInsight := {}

/-- Concrete raw insight with a campaign id and a start date. -/
def wRawI1 : RawInsight :=
  { campaign_id := some "campX", date_start := some "2024-01-02" }

/-- Concrete one-row DataFrame whose only numeric column is `reach`. -/
def wDF0 : PyDF := { nrows := 1, cols := [{ name := "reach", vals := ColVals.nums [5] }] }

/-!  Theorems.  Helper lemmas come first, then one theorem (plus
witness or counterexample) per specification claim. -/

/-- `strStarts` agrees with the list prefix relation. -/
theorem strStarts_iff (p s : List Char) : strStarts p s = true ↔ p <+: s := by
  induction p generalizing s with
  | nil => simp [strStarts]
  | cons a as ih =>
    cases s with
    | nil => simp [strStarts]
    | cons b bs =>
      have he : strStarts (a :: as) (b :: bs) = ((a == b) && strStarts as bs) := rfl
      rw [he, List.cons_prefix_cons, Bool.and_eq_true, beq_iff_eq, ih]

/-- C4: the SQL execution guard raises exactly when the stripped,
uppercased query does not start with `SELECT`, and every query passing
the check is handed unchanged to the database. -/
theorem sql_guard_select_iff {α : Type} (db : List Char → α) (q : List Char) :
    (execute_sql_query db q = Except.ok (db q) ↔
      "SELECT".data <+: pyUpper (pyStrip q)) ∧
    ((∃ msg, execute_sql_query db q = Except.error msg) ↔
      ¬ "SELECT".data <+: pyUpper (pyStrip q)) := by
  by_cases h : strStarts "SELECT".data (pyUpper (pyStrip q)) = true
  · have hp := (strStarts_iff _ _).mp h
    have hg : execute_sql_query db q = Except.ok (db q) := by
      unfold execute_sql_query
      rw [if_pos h]
    refine ⟨⟨fun _ => hp, fun _ => hg⟩, ?_, fun hn => absurd hp hn⟩
    rintro ⟨msg, hmsg⟩
    rw [hg] at hmsg
    exact absurd hmsg (by simp)
  · have hp : ¬ "SELECT".data <+: pyUpper (pyStrip q) :=
      fun hc => h ((strStarts_iff _ _).mpr hc)
    have hg : execute_sql_query db q =
        Except.error "Only SELECT queries are allowed".data := by
      unfold execute_sql_query
      rw [if_neg h]
    refine ⟨⟨?_, fun hc => absurd hc hp⟩, fun _ => hp, fun _ => ⟨_, hg⟩⟩
    intro he
    rw [hg] at he
    exact absurd he (by simp)

/-- C5: SQL-response cleaning strips the fences, strips whitespace and
appends a semicolon exactly when the stripped string does not already
end with one, so the result always ends with a semicolon. -/
theorem clean_sql_fences_and_semicolon (s : List Char) :
    clean_sql_response s =
      pyStrip (subFence3 (subFenceSql s)) ++
        (if endsSemi (pyStrip (subFence3 (subFenceSql s))) then [] else [';']) ∧
    endsSemi (clean_sql_response s) = true := by
  have hc : clean_sql_response s =
      if endsSemi (pyStrip (subFence3 (subFenceSql s))) then
        pyStrip (subFence3 (subFenceSql s))
      else pyStrip (subFence3 (subFenceSql s)) ++ [';'] := rfl
  by_cases h : endsSemi (pyStrip (subFence3 (subFenceSql s))) = true
  · rw [hc, if_pos h]
    exact ⟨by rw [if_pos h]; simp, h⟩
  · rw [hc, if_neg h]
    refine ⟨by rw [if_neg h], ?_⟩
    simp [endsSemi, List.getLast?_concat]

/-- C6: the question classifier answers analytical exactly when the
lowercased question contains one of the fixed keywords, with
`ROAS trend` analytical and `top 5 campaigns` not. -/
theorem analytical_classifier_keyword_iff :
    (∀ q, is_analytical_query q = true ↔
      ∃ k ∈ analytical_keywords, containsSub k (pyLower q) = true) ∧
    is_analytical_query "ROAS trend".data = true ∧
    is_analytical_query "top 5 campaigns".data = false := by
  refine ⟨fun q => ?_, by decide, by decide⟩
  simp [is_analytical_query, List.any_eq_true]

/-- C10: both numeric parsers are total with `None`, the empty string
and unparseable strings mapped to zero and parseable values returned,
so every numeric field of a processed campaign, ad-set and insight
record is a defined number (processed ad records have no numeric
field). -/
theorem parsers_total_and_default_zero :
    parse_float PyVal.none = 0 ∧ parse_float (PyVal.str "") = 0 ∧
    parse_int PyVal.none = 0 ∧ parse_int (PyVal.str "") = 0 ∧
    (∀ s, pyFloatOfString s = Option.none → parse_float (PyVal.str s) = 0) ∧
    (∀ s q, pyFloatOfString s = some q → parse_float (PyVal.str s) = q) ∧
    (∀ n : Int, parse_float (PyVal.int n) = (n : ℚ)) ∧
    (∀ q : ℚ, parse_float (PyVal.float q) = q) ∧
    (∀ s, pyIntOfString s = Option.none → parse_int (PyVal.str s) = 0) ∧
    (∀ s n, pyIntOfString s = some n → parse_int (PyVal.str s) = n) ∧
    (∀ n : Int, parse_int (PyVal.int n) = n) ∧
    (∀ q : ℚ, parse_int (PyVal.float q) = ratTrunc q) ∧
    (∀ acct c, ((process_campaign acct c).budget_remaining).isSome ∧
      ((process_campaign acct c).daily_budget).isSome ∧
      ((process_campaign acct c).lifetime_budget).isSome) ∧
    (∀ acct a, ((process_adset acct a).bid_amount).isSome ∧
      ((process_adset acct a).daily_budget).isSome ∧
      ((process_adset acct a).lifetime_budget).isSome) ∧
    (∀ acct n r, ((process_insight acct n r).impressions).isSome ∧
      ((process_insight acct n r).clicks).isSome ∧
      ((process_insight acct n r).spend).isSome ∧
      ((process_insight acct n r).reach).isSome ∧
      ((process_insight acct n r).frequency).isSome ∧
      ((process_insight acct n r).cpm).isSome ∧
      ((process_insight acct n r).cpc).isSome ∧
      ((process_insight acct n r).ctr).isSome ∧
      ((process_insight acct n r).cpp).isSome) := by
  refine ⟨rfl, by decide, rfl, by decide, ?_, ?_, fun n => rfl, fun q => rfl,
    ?_, ?_, fun n => rfl, fun q => rfl,
    fun acct c => ⟨rfl, rfl, rfl⟩, fun acct a => ⟨rfl, rfl, rfl⟩,
    fun acct n r => ⟨rfl, rfl, rfl, rfl, rfl, rfl, rfl, rfl, rfl⟩⟩
  · intro s hs
    by_cases h : s = ""
    · subst h; decide
    · simp [parse_float, h, hs]
  · intro s q hq
    have hne : s ≠ "" := by
      intro h
      subst h
      rw [show pyFloatOfString "" = Option.none from by decide] at hq
      cases hq
    simp [parse_float, hne, hq]
  · intro s hs
    by_cases h : s = ""
    · subst h; decide
    · simp [parse_int, h, hs]
  · intro s n hn
    have hne : s ≠ "" := by
      intro h
      subst h
      rw [show pyIntOfString "" = Option.none from by decide] at hn
      cases hn
    simp [parse_int, hne, hn]

/-- Indices inside the initial accumulator are untouched by the
insight-processing fold. -/
theorem process_insights_fold_get_lt (acct : String) :
    ∀ (raws : List RawInsight) (acc : List Insight) (i : Nat), i < acc.length →
      (raws.foldl (fun acc r => acc ++ [process_insight acct acc.length r]) acc).get? i
        = acc.get? i := by
  intro raws
  induction raws with
  | nil => intro acc i h; rfl
  | cons r rs ih =>
    intro acc i h
    have h2 : i < (acc ++ [process_insight acct acc.length r]).length := by
      simp
      omega
    rw [List.foldl_cons, ih _ _ h2]
    exact List.get?_append h

/-- One step of indexing into the insight-processing fold: the record
at offset `n` past the accumulator comes from raw record `n`, with the
ordinal equal to its final position. -/
theorem process_insights_fold_get (acct : String) :
    ∀ (raws : List RawInsight) (acc : List Insight) (n : Nat),
      (raws.foldl (fun acc r => acc ++ [process_insight acct acc.length r]) acc).get?
          (acc.length + n)
        = (raws.get? n).map (fun r => process_insight acct (acc.length + n) r) := by
  intro raws
  induction raws with
  | nil =>
    intro acc n
    have h1 : acc.length ≤ acc.length + n := Nat.le_add_right _ _
    simp [List.get?_eq_none.mpr h1]
  | cons r rs ih =>
    intro acc n
    rw [List.foldl_cons]
    cases n with
    | zero =>
      have h2 : acc.length < (acc ++ [process_insight acct acc.length r]).length := by
        simp
      rw [Nat.add_zero]
      rw [process_insights_fold_get_lt acct rs _ _ h2]
      rw [List.get?_append_right (Nat.le_refl _)]
      simp
    | succ m =>
      have h3 : (acc ++ [process_insight acct acc.length r]).length = acc.length + 1 := by
        simp
      have h4 := ih (acc ++ [process_insight acct acc.length r]) m
      rw [h3] at h4
      rw [show acc.length + (m + 1) = acc.length + 1 + m by omega]
      rw [h4]
      simp

/-- Indexing characterization of `process_insights`. -/
theorem process_insights_get? (acct : String) (raws : List RawInsight) (n : Nat) :
    (process_insights acct raws).get? n = (raws.get? n).map (process_insight acct n) := by
  have h := process_insights_fold_get acct raws [] n
  simpa [process_insights] using h

/-- C8: the processed insight at position `n` carries the synthetic id
`campaign_id-date_start-n`, with absent fields contributing the empty
string. -/
theorem insight_id_composition (acct : String) (raws : List RawInsight) (n : Nat)
    (h : n < raws.length) :
    ∃ v, (process_insights acct raws).get? n = some v ∧
      v.id = ((raws.get ⟨n, h⟩).campaign_id.getD "") ++ "-" ++
        ((raws.get ⟨n, h⟩).date_start.getD "") ++ "-" ++ toString n := by
  have hg := process_insights_get? acct raws n
  rw [List.get?_eq_get h] at hg
  exact ⟨process_insight acct n (raws.get ⟨n, h⟩), by simpa using hg, rfl⟩

/-- Witness for C8 at a concrete two-record fetch. -/
theorem insight_id_composition_witness :
    ∃ v, (process_insights "act_9" [wRawI0, wRawI1]).get? 1 = some v ∧
      v.id = (([wRawI0, wRawI1].get ⟨1, by decide⟩).campaign_id.getD "") ++ "-" ++
        (([wRawI0, wRawI1].get ⟨1, by decide⟩).date_start.getD "") ++ "-" ++ toString 1 :=
  insight_id_composition "act_9" [wRawI0, wRawI1] 1 (by decide)

/-- The campaigns table after a sequence of store operations holds the
rows of the most recent campaigns store, if there was one. -/
theorem applyStores_campaigns (ops : List StoreOp) :
    ∀ st : DBState, (applyStores st ops).campaigns =
      (lastStoredCampaigns ops).getD st.campaigns := by
  induction ops with
  | nil => intro st; rfl
  | cons op rest ih =>
    intro st
    rw [show applyStores st (op :: rest) = applyStores (applyStore st op) rest from rfl]
    rw [ih]
    cases hrest : lastStoredCampaigns rest with
    | some l => simp [lastStoredCampaigns, hrest]
    | none =>
      cases op with
      | campaigns l => simp [lastStoredCampaigns, hrest, applyStore]
      | adsets l => simp [lastStoredCampaigns, hrest, applyStore]
      | ads l => simp [lastStoredCampaigns, hrest, applyStore]
      | insights l => simp [lastStoredCampaigns, hrest, applyStore]

/-- Inserting into a sorted list is a permutation of consing. -/
theorem insertDesc_perm {α : Type} (key : α → Option Int) (a : α) (l : List α) :
    List.Perm (insertDesc key a l) (a :: l) := by
  induction l with
  | nil => exact List.Perm.refl _
  | cons b r ih =>
    by_cases h : timeLeDesc (key b) (key a) = true
    · rw [show insertDesc key a (b :: r) = b :: insertDesc key a r from by
        simp [insertDesc, h]]
      exact (ih.cons b).trans (List.Perm.swap a b r)
    · rw [show insertDesc key a (b :: r) = a :: b :: r from by
        simp [insertDesc, h]]

/-- The retrieval sort is a permutation. -/
theorem sortDesc_perm {α : Type} (key : α → Option Int) (l : List α) :
    List.Perm (sortDesc key l) l := by
  induction l with
  | nil => exact List.Perm.refl _
  | cons a r ih =>
    have h1 : sortDesc key (a :: r) = insertDesc key a (sortDesc key r) := rfl
    rw [h1]
    exact (insertDesc_perm key a _).trans (ih.cons a)

/-- C1: after any sequence of store operations whose last campaigns
store carried `rows`, retrieval returns exactly those rows (sorted by
`created_time DESC`, a permutation of `rows`); no earlier stored
record survives. -/
theorem store_replace_get_last (st : DBState) (ops : List StoreOp) (rows : List Campaign)
    (h : lastStoredCampaigns ops = some rows) :
    get_campaigns (applyStores st ops) = sortDesc (fun c => c.created_time) rows ∧
    List.Perm (get_campaigns (applyStores st ops)) rows := by
  have hc := applyStores_campaigns ops st
  rw [h] at hc
  simp only [Option.getD_some] at hc
  have hg : get_campaigns (applyStores st ops) = sortDesc (fun c => c.created_time) rows := by
    rw [get_campaigns, hc]
  exact ⟨hg, hg ▸ sortDesc_perm _ rows⟩

/-- Witness for C1: two successive stores to the campaigns table. -/
theorem store_replace_get_last_witness :
    get_campaigns (applyStores db0 [StoreOp.campaigns [wCampA], StoreOp.campaigns [wCampB]]) =
      sortDesc (fun c => c.created_time) [wCampB] ∧
    List.Perm
      (get_campaigns (applyStores db0 [StoreOp.campaigns [wCampA], StoreOp.campaigns [wCampB]]))
      [wCampB] :=
  store_replace_get_last db0 [StoreOp.campaigns [wCampA], StoreOp.campaigns [wCampB]]
    [wCampB] rfl

/-- The accumulated tail of the pagination loop is the concatenation
of the `data` arrays of the pages it requested, in request order. -/
theorem paginate_rest_join {α : Type} :
    ∀ (script : List (Resp α)) (p : Page α) (t : List α),
      paginate_rest p script = some t →
      t = ((requested_pages p script).map page_data).join := by
  intro script
  induction script with
  | nil =>
    intro p t ht
    cases hc : cursor_of p with
    | none =>
      simp only [paginate_rest, hc, Option.some.injEq] at ht
      subst ht
      simp [requested_pages]
    | some c =>
      simp only [paginate_rest, hc] at ht
      exact Option.noConfusion ht
  | cons resp rest ih =>
    intro p t ht
    cases resp with
    | err =>
      cases hc : cursor_of p with
      | none =>
        simp only [paginate_rest, hc, Option.some.injEq] at ht
        subst ht
        simp [requested_pages]
      | some cur =>
        simp only [paginate_rest, hc] at ht
        exact Option.noConfusion ht
    | ok q =>
      cases hc : cursor_of p with
      | none =>
        simp only [paginate_rest, hc, Option.some.injEq] at ht
        subst ht
        simp [requested_pages, hc]
      | some cur =>
        cases hd : q.data with
        | none =>
          simp only [paginate_rest, hc, hd, Option.some.injEq] at ht
          subst ht
          simp [requested_pages, hc, hd, page_data]
        | some d =>
          simp only [paginate_rest, hc, hd] at ht
          cases hpr : paginate_rest q rest with
          | none =>
            rw [hpr] at ht
            exact Option.noConfusion ht
          | some t2 =>
            rw [hpr] at ht
            simp only [Option.map_some', Option.some.injEq] at ht
            have h2 := ih q t2 hpr
            subst ht
            simp [requested_pages, hc, hd, page_data, h2]

/-- C2: whenever the pagination loop completes without a raised error
it returns the concatenation, in request order, of the `data` arrays
of the first page and of every page it requested by following the
continuation cursors; with no cursor on the first page it stops
immediately.  (Termination is inherent: the loop consumes the finite
script.) -/
theorem paginate_concats_fetched_pages {α : Type} (p : Page α) (script : List (Resp α))
    (r : List α) (h : paginate_request (Resp.ok p) script = some r) :
    r = page_data p ++ ((requested_pages p script).map page_data).join ∧
    (cursor_of p = Option.none → r = page_data p) := by
  simp only [paginate_request] at h
  cases hpr : paginate_rest p script with
  | none =>
    rw [hpr] at h
    exact Option.noConfusion h
  | some t =>
    rw [hpr] at h
    simp only [Option.map_some', Option.some.injEq] at h
    have hj := paginate_rest_join script p t hpr
    subst h
    constructor
    · rw [hj]
    · intro hcn
      have hreq : requested_pages p script = [] := by
        cases script with
        | nil => simp [requested_pages]
        | cons a l =>
          cases a with
          | err => simp [requested_pages]
          | ok q => simp [requested_pages, hcn]
      rw [hj, hreq]
      simp

/-- Witness for C2: a two-page scripted run with a cursor-bearing
first page. -/
theorem paginate_concats_fetched_pages_witness :
    ([1, 2, 3] : List Nat) =
      page_data wPage1 ++ ((requested_pages wPage1 [Resp.ok wPage2]).map page_data).join ∧
    (cursor_of wPage1 = Option.none → ([1, 2, 3] : List Nat) = page_data wPage1) :=
  paginate_concats_fetched_pages wPage1 [Resp.ok wPage2] [1, 2, 3] (by decide)

/-- C3: if any page request of a campaigns fetch raises, the fetch
returns the complete two-record canned fallback dataset with the
requested account id filled in — never a partial concatenation — and,
being a total function, propagates no error. -/
theorem fetch_campaigns_fallback_on_error (now : Int) (acct : String)
    (first : Resp RawCampaign) (script : List (Resp RawCampaign))
    (h : paginate_request first script = Option.none) :
    fetch_campaigns now acct first script = sample_campaigns now acct ∧
    (sample_campaigns now acct).map (fun c => c.account_id) = [acct, acct] ∧
    (sample_campaigns now acct).length = 2 ∧
    (sample_campaigns now acct).map (fun c => c.id) = [some "camp_001", some "camp_002"] := by
  refine ⟨?_, rfl, rfl, rfl⟩
  simp [fetch_campaigns, h]

/-- Witness for C3: the very first request raises. -/
theorem fetch_campaigns_fallback_on_error_witness :
    fetch_campaigns 1000 "act_777" Resp.err [] = sample_campaigns 1000 "act_777" ∧
    (sample_campaigns 1000 "act_777").map (fun c => c.account_id) = ["act_777", "act_777"] ∧
    (sample_campaigns 1000 "act_777").length = 2 ∧
    (sample_campaigns 1000 "act_777").map (fun c => c.id) =
      [some "camp_001", some "camp_002"] :=
  fetch_campaigns_fallback_on_error 1000 "act_777" Resp.err [] rfl

/-- The column loop of the fallback narration appends exactly the
sentences selected by `column_sentence`. -/
theorem fallback_fold_filterMap (l : List (String × List ℚ)) :
    ∀ init : List FallbackItem,
      l.foldl (fun acc nc =>
        match column_sentence nc.1 nc.2 with
        | some it => acc ++ [it]
        | Option.none => acc) init
      = init ++ l.filterMap (fun nc => column_sentence nc.1 nc.2) := by
  induction l with
  | nil => intro init; simp
  | cons nc rest ih =>
    intro init
    rw [List.foldl_cons]
    cases hcs : column_sentence nc.1 nc.2 with
    | none => simp only [ih, List.filterMap_cons, hcs]
    | some it =>
      simp only [ih, List.filterMap_cons, hcs]
      simp

/-- C7 (amended): the fallback narration is the record-count sentence
followed by one sentence for each numeric column whose name matches
the fixed substring/equality tests (and only those), then the optional
top-performer sentence; it is a pure function of the result set. -/
theorem fallback_insights_characterization (df : PyDF) :
    generate_fallback_insights df =
      FallbackItem.found df.nrows ::
        ((numeric_cols df).filterMap (fun nc => column_sentence nc.1 nc.2) ++
          top_performer_items df) ∧
    ∀ nc ∈ numeric_cols df,
      (column_sentence nc.1 nc.2).isSome =
        (containsSub "spend".data (pyLower nc.1.data) ||
         containsSub "ctr".data (pyLower nc.1.data) ||
         (pyLower nc.1.data == "impressions".data) ||
         (pyLower nc.1.data == "clicks".data)) := by
  constructor
  · rw [show generate_fallback_insights df =
        ((numeric_cols df).foldl (fun acc nc =>
          match column_sentence nc.1 nc.2 with
          | some it => acc ++ [it]
          | Option.none => acc) [FallbackItem.found df.nrows]) ++ top_performer_items df
      from rfl]
    rw [fallback_fold_filterMap]
    simp
  · intro nc _
    by_cases h1 : containsSub "spend".data (pyLower nc.1.data) = true
    · have hL : column_sentence nc.1 nc.2 =
          some (FallbackItem.spendLine nc.1 (qsum nc.2) (qmean nc.2)) := by
        unfold column_sentence
        rw [if_pos h1]
      rw [hL, h1]
      rfl
    · by_cases h2 : containsSub "ctr".data (pyLower nc.1.data) = true
      · have hL : column_sentence nc.1 nc.2 =
            some (FallbackItem.ctrLine nc.1 (qmean nc.2)) := by
          unfold column_sentence
          rw [if_neg h1, if_pos h2]
        rw [hL, h2]
        simp
      · by_cases h3 : pyLower nc.1.data = "impressions".data ∨
            pyLower nc.1.data = "clicks".data
        · have hL : column_sentence nc.1 nc.2 =
              some (FallbackItem.totalLine nc.1 (qsum nc.2)) := by
            unfold column_sentence
            rw [if_neg h1, if_neg h2, if_pos h3]
          rw [hL]
          rcases h3 with h3 | h3 <;> simp [h3]
        · have hL : column_sentence nc.1 nc.2 = Option.none := by
            unfold column_sentence
            rw [if_neg h1, if_neg h2, if_neg h3]
          have hA : (pyLower nc.1.data == "impressions".data) = false :=
            beq_eq_false_iff_ne.mpr (fun he => h3 (Or.inl he))
          have hB : (pyLower nc.1.data == "clicks".data) = false :=
            beq_eq_false_iff_ne.mpr (fun he => h3 (Or.inr he))
          rw [hL]
          simp [Bool.eq_false_iff.mpr h1, Bool.eq_false_iff.mpr h2, hA, hB]

/-- Counterexample to C7 as stated: a result set with the numeric
column `reach` gets no per-column sentence at all. -/
theorem fallback_insights_not_every_numeric_col :
    numeric_cols wDF0 = [("reach", [(5 : ℚ)])] ∧
    generate_fallback_insights wDF0 = [FallbackItem.found 1] := by
  constructor
  · rfl
  · decide

/-- Unfolding lemma for the fence scan on the empty list. -/
theorem subFence3_nil : subFence3 [] = [] := by
  rw [subFence3]

/-- Unfolding lemma for the fence scan on a cons cell. -/
theorem subFence3_cons (c : Char) (r : List Char) :
    subFence3 (c :: r) =
      if strStarts fence3 (c :: r) then subFence3 (dropNl ((c :: r).drop 3))
      else c :: subFence3 r := by
  rw [subFence3]

/-- Unfolding lemma for the sql-fence scan on the empty list. -/
theorem subFenceSql_nil : subFenceSql [] = [] := by
  rw [subFenceSql]

/-- Unfolding lemma for the sql-fence scan on a cons cell. -/
theorem subFenceSql_cons (c : Char) (r : List Char) :
    subFenceSql (c :: r) =
      if strStarts fenceSql (c :: r) then subFenceSql (dropNl ((c :: r).drop 6))
      else c :: subFenceSql r := by
  rw [subFenceSql]

/-- The fence test on a cons cell is a backtick test on the head plus a
two-tick test on the tail. -/
theorem strStarts_fence3_cons (c : Char) (l : List Char) :
    strStarts fence3 (c :: l) = ((btick == c) && firstTwoTicks l) := by
  cases l with
  | nil => simp [strStarts, fence3, firstTwoTicks]
  | cons d l2 =>
    cases l2 with
    | nil => simp [strStarts, fence3, firstTwoTicks]
    | cons e l3 => simp [strStarts, fence3, firstTwoTicks, Bool.and_assoc]

/-- The fence scan cannot create a leading backtick. -/
theorem firstIsTick_subFence3 (r : List Char) (h : firstIsTick r = false) :
    firstIsTick (subFence3 r) = false := by
  cases r with
  | nil => rw [subFence3_nil]; exact h
  | cons c r2 =>
    have hc : (btick == c) = false := h
    have hs : strStarts fence3 (c :: r2) = false := by
      rw [strStarts_fence3_cons, hc, Bool.false_and]
    rw [subFence3_cons, if_neg (by simp [hs])]
    exact hc

/-- The fence scan cannot create two leading backticks. -/
theorem firstTwoTicks_subFence3 (r : List Char) (h : firstTwoTicks r = false) :
    firstTwoTicks (subFence3 r) = false := by
  cases r with
  | nil => rw [subFence3_nil]; exact h
  | cons c r2 =>
    by_cases hc : (btick == c) = true
    · cases r2 with
      | nil =>
        have hs : strStarts fence3 [c] = false := by
          rw [strStarts_fence3_cons]
          rw [show firstTwoTicks [] = false from rfl, Bool.and_false]
        rw [subFence3_cons, if_neg (by simp [hs]), subFence3_nil]
        rfl
      | cons d r3 =>
        have h2 : ((btick == c) && (btick == d)) = false := h
        rw [hc, Bool.true_and] at h2
        have hs : strStarts fence3 (c :: d :: r3) = false := by
          rw [strStarts_fence3_cons]
          have h3 : firstTwoTicks (d :: r3) = false := by
            cases r3 with
            | nil => rfl
            | cons e r4 =>
              show ((btick == d) && (btick == e)) = false
              rw [h2, Bool.false_and]
          rw [h3, Bool.and_false]
        rw [subFence3_cons, if_neg (by simp [hs])]
        have hdt : firstIsTick (subFence3 (d :: r3)) = false :=
          firstIsTick_subFence3 (d :: r3) h2
        cases hsub : subFence3 (d :: r3) with
        | nil => rfl
        | cons e t =>
          have he : (btick == e) = false := by
            rw [hsub] at hdt
            exact hdt
          show ((btick == c) && (btick == e)) = false
          rw [he, Bool.and_false]
    · have hcf : (btick == c) = false := Bool.eq_false_iff.mpr hc
      have hs : strStarts fence3 (c :: r2) = false := by
        rw [strStarts_fence3_cons, hcf, Bool.false_and]
      rw [subFence3_cons, if_neg (by simp [hs])]
      cases hsub : subFence3 r2 with
      | nil => rfl
      | cons e t =>
        show ((btick == c) && (btick == e)) = false
        rw [hcf, Bool.false_and]

/-- Fuel-indexed main lemma: the output of the fence scan contains no
three consecutive backticks. -/
theorem hasFence_subFence3_len :
    ∀ n (s : List Char), s.length ≤ n → hasFence (subFence3 s) = false := by
  intro n
  induction n with
  | zero =>
    intro s hs
    have h0 : s = [] := List.length_eq_zero.mp (Nat.le_zero.mp hs)
    subst h0
    rw [subFence3_nil]
    rfl
  | succ n ih =>
    intro s hs
    cases s with
    | nil => rw [subFence3_nil]; rfl
    | cons c r =>
      by_cases hm : strStarts fence3 (c :: r) = true
      · rw [subFence3_cons, if_pos (by simp [hm])]
        apply ih
        have h0 : ∀ u : List Char, (dropNl u).length ≤ u.length := by
          intro u
          cases u with
          | nil => simp [dropNl]
          | cons d t => simp only [dropNl]; split <;> simp
        have h1 := h0 ((c :: r).drop 3)
        simp only [List.length_drop, List.length_cons] at h1
        simp only [List.length_cons] at hs
        omega
      · have hmf : strStarts fence3 (c :: r) = false := Bool.eq_false_iff.mpr hm
        rw [subFence3_cons, if_neg (by simp [hmf])]
        have hr : hasFence (subFence3 r) = false := by
          apply ih
          simp only [List.length_cons] at hs
          omega
        have hhead : strStarts fence3 (c :: subFence3 r) = false := by
          rw [strStarts_fence3_cons]
          by_cases hc : (btick == c) = true
          · rw [strStarts_fence3_cons, hc, Bool.true_and] at hmf
            rw [hc, Bool.true_and]
            exact firstTwoTicks_subFence3 r hmf
          · rw [Bool.eq_false_iff.mpr hc, Bool.false_and]
        show (strStarts fence3 (c :: subFence3 r) || hasFence (subFence3 r)) = false
        rw [hhead, hr]
        rfl

/-- The output of the fence scan contains no fence. -/
theorem hasFence_subFence3 (s : List Char) : hasFence (subFence3 s) = false :=
  hasFence_subFence3_len s.length s (Nat.le_refl _)

/-- `strStarts` is stable under extending the scanned string. -/
theorem strStarts_append_mono (p : List Char) :
    ∀ l u, strStarts p l = true → strStarts p (l ++ u) = true := by
  induction p with
  | nil => intro l u _; rfl
  | cons a as ih =>
    intro l u h
    cases l with
    | nil => exact absurd h (by simp [strStarts])
    | cons b bs =>
      have h2 : ((a == b) && strStarts as bs) = true := h
      have hab := Bool.and_eq_true_iff.mp h2
      show ((a == b) && strStarts as (bs ++ u)) = true
      rw [hab.1, Bool.true_and]
      exact ih bs u hab.2

/-- A match of a concatenated pattern yields a match of its left
part. -/
theorem strStarts_append_left (p q : List Char) :
    ∀ l, strStarts (p ++ q) l = true → strStarts p l = true := by
  induction p with
  | nil => intro l _; rfl
  | cons a as ih =>
    intro l h
    cases l with
    | nil => exact absurd h (by simp [strStarts])
    | cons b bs =>
      have h2 : ((a == b) && strStarts (as ++ q) bs) = true := h
      have hab := Bool.and_eq_true_iff.mp h2
      show ((a == b) && strStarts as bs) = true
      rw [hab.1, Bool.true_and]
      exact ih bs hab.2

/-- A fence-free concatenation has a fence-free left part. -/
theorem hasFence_append_left (w u : List Char) (h : hasFence (w ++ u) = false) :
    hasFence w = false := by
  induction w with
  | nil => rfl
  | cons c w2 ih =>
    have h2 : (strStarts fence3 (c :: (w2 ++ u)) || hasFence (w2 ++ u)) = false := h
    have ho := Bool.or_eq_false_iff.mp h2
    have hs : strStarts fence3 (c :: w2) = false := by
      by_cases hq : strStarts fence3 (c :: w2) = true
      · have h3 := strStarts_append_mono fence3 (c :: w2) u hq
        rw [show (c :: w2) ++ u = c :: (w2 ++ u) from rfl] at h3
        exact absurd h3 (by simp [ho.1])
      · exact Bool.eq_false_iff.mpr hq
    show (strStarts fence3 (c :: w2) || hasFence w2) = false
    rw [hs, ih ho.2]
    rfl

/-- A fence-free concatenation has a fence-free right part. -/
theorem hasFence_append_right (u w : List Char) (h : hasFence (u ++ w) = false) :
    hasFence w = false := by
  induction u with
  | nil => exact h
  | cons c u2 ih =>
    have h2 : (strStarts fence3 (c :: (u2 ++ w)) || hasFence (u2 ++ w)) = false := h
    exact ih (Bool.or_eq_false_iff.mp h2).2

/-- Stripping whitespace preserves fence-freeness. -/
theorem hasFence_pyStrip (s : List Char) (h : hasFence s = false) :
    hasFence (pyStrip s) = false := by
  have h1 : hasFence (s.dropWhile pyIsSpace) = false := by
    obtain ⟨u, hu⟩ := List.dropWhile_suffix (l := s) pyIsSpace
    exact hasFence_append_right u _ (by rw [hu]; exact h)
  obtain ⟨u, hu⟩ := List.rdropWhile_prefix pyIsSpace (s.dropWhile pyIsSpace)
  apply hasFence_append_left _ u
  show hasFence ((s.dropWhile pyIsSpace).rdropWhile pyIsSpace ++ u) = false
  rw [hu]
  exact h1

/-- Appending a non-backtick cannot create two leading backticks. -/
theorem firstTwoTicks_concat (w : List Char) (c : Char) (hc : (btick == c) = false)
    (h : firstTwoTicks w = false) : firstTwoTicks (w ++ [c]) = false := by
  cases w with
  | nil => rfl
  | cons d w2 =>
    cases w2 with
    | nil =>
      show ((btick == d) && (btick == c)) = false
      rw [hc, Bool.and_false]
    | cons e w3 => exact h

/-- Appending a non-backtick preserves fence-freeness. -/
theorem hasFence_concat (w : List Char) (c : Char) (hc : (btick == c) = false)
    (h : hasFence w = false) : hasFence (w ++ [c]) = false := by
  induction w with
  | nil =>
    show (strStarts fence3 [c] || hasFence []) = false
    rw [strStarts_fence3_cons]
    rw [show firstTwoTicks ([] : List Char) = false from rfl, Bool.and_false]
    rfl
  | cons d w2 ih =>
    have h2 : (strStarts fence3 (d :: w2) || hasFence w2) = false := h
    have ho := Bool.or_eq_false_iff.mp h2
    have hw : hasFence (w2 ++ [c]) = false := ih ho.2
    have h1 : ((btick == d) && firstTwoTicks w2) = false := by
      rw [← strStarts_fence3_cons]
      exact ho.1
    show (strStarts fence3 (d :: (w2 ++ [c])) || hasFence (w2 ++ [c])) = false
    by_cases hd : (btick == d) = true
    · have hft : firstTwoTicks w2 = false := by
        rw [hd, Bool.true_and] at h1
        exact h1
      rw [strStarts_fence3_cons, firstTwoTicks_concat w2 c hc hft, Bool.and_false, hw]
      rfl
    · rw [strStarts_fence3_cons, Bool.eq_false_iff.mpr hd, Bool.false_and, hw]
      rfl

/-- The fence scan is the identity on fence-free strings. -/
theorem subFence3_id_of_noFence (s : List Char) (h : hasFence s = false) :
    subFence3 s = s := by
  induction s with
  | nil => exact subFence3_nil
  | cons c r ih =>
    have h2 : (strStarts fence3 (c :: r) || hasFence r) = false := h
    have ho := Bool.or_eq_false_iff.mp h2
    rw [subFence3_cons, if_neg (by simp [ho.1]), ih ho.2]

/-- The sql-fence scan is the identity on fence-free strings. -/
theorem subFenceSql_id_of_noFence (s : List Char) (h : hasFence s = false) :
    subFenceSql s = s := by
  induction s with
  | nil => exact subFenceSql_nil
  | cons c r ih =>
    have h2 : (strStarts fence3 (c :: r) || hasFence r) = false := h
    have ho := Bool.or_eq_false_iff.mp h2
    have hs : strStarts fenceSql (c :: r) = false := by
      by_cases hq : strStarts fenceSql (c :: r) = true
      · have h3 := strStarts_append_left fence3 ['s', 'q', 'l'] (c :: r)
          (by rw [show fence3 ++ ['s', 'q', 'l'] = fenceSql from rfl]; exact hq)
        exact absurd h3 (by simp [ho.1])
      · exact Bool.eq_false_iff.mpr hq
    rw [subFenceSql_cons, if_neg (by simp [hs]), ih ho.2]

/-- The head of a `dropWhile` result, when present, fails the
predicate. -/
theorem dropWhile_shape (p : Char → Bool) (s : List Char) :
    s.dropWhile p = [] ∨ ∃ c t, s.dropWhile p = c :: t ∧ p c = false := by
  induction s with
  | nil => exact Or.inl rfl
  | cons c r ih =>
    rw [List.dropWhile_cons]
    by_cases hp : p c = true
    · rw [if_pos hp]
      exact ih
    · rw [if_neg hp]
      exact Or.inr ⟨c, r, rfl, Bool.eq_false_iff.mpr hp⟩

/-- The head of a stripped string, when present, is not whitespace. -/
theorem pyStrip_shape (s : List Char) :
    pyStrip s = [] ∨ ∃ c t, pyStrip s = c :: t ∧ pyIsSpace c = false := by
  cases hres : pyStrip s with
  | nil => exact Or.inl rfl
  | cons c t =>
    right
    refine ⟨c, t, rfl, ?_⟩
    obtain ⟨u, hu⟩ := List.rdropWhile_prefix pyIsSpace (s.dropWhile pyIsSpace)
    rcases dropWhile_shape pyIsSpace s with hdw | ⟨c2, t2, hdw, hc2⟩
    · have h0 : pyStrip s = [] := by
        show (s.dropWhile pyIsSpace).rdropWhile pyIsSpace = []
        rw [hdw]
        exact List.rdropWhile_nil pyIsSpace
      rw [hres] at h0
      exact List.noConfusion h0
    · have hu2 : (c :: t) ++ u = c2 :: t2 := by
        rw [← hres, ← hdw]
        exact hu
      have hcc : c = c2 := by
        injection hu2 with h1 h2
      rw [hcc]
      exact hc2

/-- The last character of a stripped string, when present, is not
whitespace. -/
theorem pyStrip_last_shape (s : List Char) :
    pyStrip s = [] ∨ ∃ c, (pyStrip s).getLast? = some c ∧ pyIsSpace c = false := by
  cases hres : pyStrip s with
  | nil => exact Or.inl rfl
  | cons c t =>
    right
    have hne : pyStrip s ≠ [] := by rw [hres]; simp
    have hne2 : (s.dropWhile pyIsSpace).rdropWhile pyIsSpace ≠ [] := hne
    have hlast := List.rdropWhile_last_not (p := pyIsSpace) (l := s.dropWhile pyIsSpace) hne2
    refine ⟨(pyStrip s).getLast hne, ?_, Bool.eq_false_iff.mpr hlast⟩
    rw [← hres]
    exact List.getLast?_eq_getLast _ hne

/-- Stripping is the identity on strings whose first and last
characters are not whitespace. -/
theorem pyStrip_fixed (u : List Char)
    (hh : u = [] ∨ ∃ c t, u = c :: t ∧ pyIsSpace c = false)
    (hl : u = [] ∨ ∃ c, u.getLast? = some c ∧ pyIsSpace c = false) :
    pyStrip u = u := by
  rcases hh with rfl | ⟨c, t, rfl, hc⟩
  · show (List.dropWhile pyIsSpace []).rdropWhile pyIsSpace = []
    rw [List.dropWhile_nil]
    exact List.rdropWhile_nil pyIsSpace
  · have h1 : (c :: t).dropWhile pyIsSpace = c :: t := by
      rw [List.dropWhile_cons, if_neg (by simp [hc])]
    show ((c :: t).dropWhile pyIsSpace).rdropWhile pyIsSpace = c :: t
    rw [h1]
    rw [List.rdropWhile_eq_self_iff]
    intro hne
    rcases hl with h0 | ⟨c2, hlast, hc2⟩
    · exact absurd h0 (by simp)
    · have h3 := List.getLast?_eq_getLast (c :: t) hne
      rw [hlast] at h3
      have h4 : c2 = (c :: t).getLast hne := Option.some.inj h3
      rw [← h4]
      simp [hc2]

/-- C9: SQL-response cleaning is idempotent.  After one pass the
result is fence-free (fence removal cannot re-create a fence), fully
stripped, and semicolon-terminated, so a second pass changes
nothing. -/
theorem clean_sql_idempotent (s : List Char) :
    clean_sql_response (clean_sql_response s) = clean_sql_response s := by
  have hdef : ∀ x : List Char, clean_sql_response x =
      if endsSemi (pyStrip (subFence3 (subFenceSql x))) then
        pyStrip (subFence3 (subFenceSql x))
      else pyStrip (subFence3 (subFenceSql x)) ++ [';'] := fun x => rfl
  obtain ⟨t, ht⟩ : ∃ t, pyStrip (subFence3 (subFenceSql s)) = t := ⟨_, rfl⟩
  have hF0 : hasFence (subFence3 (subFenceSql s)) = false := hasFence_subFence3 _
  have hFt : hasFence t = false := ht ▸ hasFence_pyStrip _ hF0
  have hshape : t = [] ∨ ∃ c t2, t = c :: t2 ∧ pyIsSpace c = false :=
    ht ▸ pyStrip_shape (subFence3 (subFenceSql s))
  have hlshape : t = [] ∨ ∃ c, t.getLast? = some c ∧ pyIsSpace c = false :=
    ht ▸ pyStrip_last_shape (subFence3 (subFenceSql s))
  by_cases hE : endsSemi t = true
  · have hu : clean_sql_response s = t := by
      rw [hdef s, ht, if_pos hE]
    rw [hu]
    have hsql : subFenceSql t = t := subFenceSql_id_of_noFence t hFt
    have h3 : subFence3 t = t := subFence3_id_of_noFence t hFt
    have hstrip : pyStrip t = t := pyStrip_fixed t hshape hlshape
    rw [hdef t, hsql, h3, hstrip, if_pos hE]
  · have hu : clean_sql_response s = t ++ [';'] := by
      rw [hdef s, ht, if_neg hE]
    rw [hu]
    have hFu : hasFence (t ++ [';']) = false :=
      hasFence_concat t ';' (by decide) hFt
    have hsql : subFenceSql (t ++ [';']) = t ++ [';'] :=
      subFenceSql_id_of_noFence _ hFu
    have h3 : subFence3 (t ++ [';']) = t ++ [';'] :=
      subFence3_id_of_noFence _ hFu
    have hstrip : pyStrip (t ++ [';']) = t ++ [';'] := by
      apply pyStrip_fixed
      · rcases hshape with rfl | ⟨c, t2, rfl, hc⟩
        · exact Or.inr ⟨';', [], rfl, by decide⟩
        · exact Or.inr ⟨c, t2 ++ [';'], rfl, hc⟩
      · exact Or.inr ⟨';', List.getLast?_concat _, by decide⟩
    have hEnd : endsSemi (t ++ [';']) = true := by
      simp [endsSemi, List.getLast?_concat]
    rw [hdef (t ++ [';']), hsql, h3, hstrip, if_pos hEnd]
